import Mathlib

/-!
Shallow embedding of `custom-anki-script/update_field_from_fields.py`.

The script reads notes from a remote store (AnkiConnect), and for each note
composes a new value for a target field (`field_z`) from the comma-separated
items of a source field (`field_x`), transcribing each item to IPA via the
external `espeak` tool, with a per-run memoization cache.  Planned updates are
applied in sub-batches of 50 through a "multi" request.

String primitives are re-implemented structurally (over `List Char`) so that
they mirror the Python semantics (`str.strip`, `str.split(",")`,
`", ".join(...)`, `str.lower`) and evaluate inside the kernel.  Python's
`str.strip` removes unicode whitespace; we model it with `Char.isWhitespace`,
which covers the whitespace occurring in the fields this script manipulates.
-/

namespace AnkiScript

/-- Characters that `str.strip()` removes, modelled by `Char.isWhitespace`. -/
def isSpaceChar (c : Char) : Bool := c.isWhitespace

/-- Remove leading whitespace from a character list. -/
def dropLeading (l : List Char) : List Char := l.dropWhile isSpaceChar

/-- Remove trailing whitespace from a character list. -/
def dropTrailing (l : List Char) : List Char := (l.reverse.dropWhile isSpaceChar).reverse

/-- Python `s.strip()` on the character list level. -/
def trimChars (l : List Char) : List Char := dropTrailing (dropLeading l)

/-- Python `s.strip()`. -/
def pyStrip (s : String) : String := String.mk (trimChars s.data)

/-- Python `s.split(sep)` for a one-character separator, on character lists:
`split(",")` of `""` is `[""]`, of `","` is `["", ""]`, etc. -/
def splitOnChar (sep : Char) : List Char → List (List Char)
  | [] => [[]]
  | c :: rest =>
      match splitOnChar sep rest with
      | [] => if c = sep then [[], []] else [[c]]
      | h :: t => if c = sep then [] :: h :: t else (c :: h) :: t

/-- Python `x.split(",")`. -/
def pySplitComma (x : String) : List String :=
  (splitOnChar ',' x.data).map String.mk

/-- Python `sep.join(parts)`. -/
def pyJoin (sep : String) : List String → String
  | [] => ""
  | [a] => a
  | a :: rest => a ++ sep ++ pyJoin sep rest

/-- Python `s.lower()` (ASCII case fold suffices for the language tags used). -/
def pyLower (s : String) : String := String.mk (s.data.map Char.toLower)

/-- A Python string is truthy iff it is non-empty; `(s or "")` etc. -/
def pyTruthy (s : String) : Bool := s ≠ ""

-- Sanity checks that the primitives match the Python examples in the spec.
example : pySplitComma " a ,, b " = [" a ", "", " b "] := by decide
example : pyStrip " a " = "a" := by decide
example : pyJoin ", " ["x", "y"] = "x, y" := by decide

/-! ## The transcription cache

`make_target_value` keys its memoization dict by the string
`f"{lang.lower()}|{int(strip_zero_width)}|{item}"`.  The dict is modelled as an
association list with insertion at the head (only ever inserted on a miss, so
lookup finds the single binding for a key).  The `log` field records, in order,
the texts on which the external tool was actually invoked: it exists only to
state how often the tool runs and does not influence any computed value. -/

/-- The cache key built at line 111 of the script:
`f"{lang.lower()}|{int(strip_zero_width)}|{item}"`. -/
def cacheKey (lang : String) (strip_zero_width : Bool) (item : String) : String :=
  pyLower lang ++ "|" ++ (if strip_zero_width then "1" else "0") ++ "|" ++ item

/-- State threaded through transcription: the memoization dict plus the log of
texts passed to the external tool (one entry per actual subprocess run). -/
structure TransState where
  cache : List (String × String)
  log : List String
deriving DecidableEq, Repr

/-- The empty per-run state (`ipa_cache: Dict[str, str] = {}`). -/
def initState : TransState := ⟨[], []⟩

/-- Lines 111–117 of the script: look the item up in the cache; on a miss run
the transcription function `t` (standing for `ipa_of_text` at the run's fixed
language and flag) and store the result under the key. -/
def getOrCompute (t : String → String) (lang : String) (flag : Bool)
    (item : String) (st : TransState) : String × TransState :=
  let k := cacheKey lang flag item
  match List.lookup k st.cache with
  | some ipa => (ipa, st)
  | none =>
      let ipa := t item
      (ipa, ⟨(k, ipa) :: st.cache, st.log ++ [item]⟩)

/-- The `for item in items` loop of `make_target_value` (lines 110–117),
returning the `ipa_items` list and the final cache state. -/
def transcribeItems (t : String → String) (lang : String) (flag : Bool) :
    List String → TransState → List String × TransState
  | [], st => ([], st)
  | item :: rest, st =>
      let (ipa, st1) := getOrCompute t lang flag item st
      let (tl, st2) := transcribeItems t lang flag rest st1
      (ipa :: tl, st2)

/-- Line 103: `[p.strip() for p in x.split(",") if p.strip()]`. -/
def splitItems (x : String) : List String :=
  ((pySplitComma x).map pyStrip).filter (fun p => p ≠ "")

set_option linter.unusedVariables false in
/-- `make_target_value` (lines 91–120).  `t` stands for
`ipa_of_text · lang strip_zero_width`; the parameter `y` is accepted and
ignored exactly as in the source.  Returns the composed value together with
the updated cache state. -/
def make_target_value (t : String → String) (lang : String) (flag : Bool)
    (x : String) (y : String) (st : TransState) : String × TransState :=
  let x := pyStrip x
  if x = "" then ("", st)
  else
    let items := splitItems x
    if items = [] then ("", st)
    else
      let (ipa_items, st1) := transcribeItems t lang flag items st
      let ipa_joined := pyJoin ", " (ipa_items.filter (fun i => i ≠ ""))
      (if ipa_joined = "" then x else x ++ " (" ++ ipa_joined ++ ")", st1)

example :
    (make_target_value (fun s => if s = "run" then "rʌn" else if s = "jog" then "dʒɒg" else "")
      "en-us" false "run, jog" "" initState).1 = "run, jog (rʌn, dʒɒg)" := by decide

/-! ## The pipeline of `main` (lines 123–221)

A note is its id plus a field map (`notesInfo` returns
`fields: {name: {value}}`); the map is modelled as a function from field
name to `Option String` (`None` for an absent field).  The configuration
gathers the CLI arguments that parameterize the planning loop. -/

/-- One note as returned by `notesInfo`. -/
structure NoteInfo where
  noteId : Nat
  fields : String → Option String

/-- Line 177/178/179: `(fields.get(name, {}).get("value") or "")`. -/
def getFieldValue (fields : String → Option String) (name : String) : String :=
  (fields name).getD ""

/-- The CLI arguments that the planning loop reads. -/
structure Config where
  fieldX : String
  fieldY : String
  fieldZ : String
  lang : String
  stripZeroWidth : Bool
  onlyIfZEmpty : Bool

/-- Line 13: `FIELD_X_DEFAULT = "Synonyms"`. -/
def FIELD_X_DEFAULT : String := "Synonyms"

/-- Line 14: `FIELD_Y_DEFAULT = "Synonyms IPA"` (kept for backward-compat, not used). -/
def FIELD_Y_DEFAULT : String := "Synonyms IPA"

/-- Line 15: `FIELD_Z_DEFAULT = "Synonyms"`. -/
def FIELD_Z_DEFAULT : String := "Synonyms"

/-- The default configuration of the argument parser: both the source and the
target field default to `"Synonyms"`. -/
def defaultConfig : Config :=
  ⟨FIELD_X_DEFAULT, FIELD_Y_DEFAULT, FIELD_Z_DEFAULT, "en-us", false, false⟩

/-- A planned update (lines 194–197):
`{"id": nid, "fields": {args.field_z: new_z}}`.  The `fields` payload is kept
as an explicit association list so that the shape of the mutation request is
part of the model. -/
structure PlannedUpdate where
  id : Nat
  fields : List (String × String)
deriving DecidableEq, Repr

/-- The body of the `for info in infos` loop (lines 173–197) for one note:
returns the candidate update (if any) and the cache state after the note. -/
def planNote (t : String → String) (cfg : Config) (info : NoteInfo)
    (st : TransState) : Option PlannedUpdate × TransState :=
  let x := pyStrip (getFieldValue info.fields cfg.fieldX)
  let y := pyStrip (getFieldValue info.fields cfg.fieldY)
  let z := pyStrip (getFieldValue info.fields cfg.fieldZ)
  if cfg.onlyIfZEmpty ∧ z ≠ "" then (none, st)
  else if x = "" then (none, st)
  else
    let r := make_target_value t cfg.lang cfg.stripZeroWidth x y st
    if r.1 ≠ "" ∧ r.1 ≠ z then
      (some ⟨info.noteId, [(cfg.fieldZ, r.1)]⟩, r.2)
    else (none, r.2)

/-- The planning loop over a list of notes, threading the shared cache and
accumulating `planned_updates` in note order. -/
def planNotes (t : String → String) (cfg : Config) :
    List NoteInfo → TransState → List PlannedUpdate × TransState
  | [], st => ([], st)
  | info :: rest, st =>
      let r := planNote t cfg info st
      let rs := planNotes t cfg rest r.2
      ((match r.1 with | some v => [v] | none => []) ++ rs.1, rs.2)

/-- `chunked` (lines 28–29): `[lst[i:i+size] for i in range(0,len(lst),size)]`,
for a positive `size` (the script only calls it with 200 and 50; Python
`range` with step 0 raises).  Structural recursion on a `List.length` fuel so
the kernel can evaluate it. -/
def chunkedAux {α : Type} : Nat → List α → Nat → List (List α)
  | _, [], _ => []
  | 0, _, _ => []
  | fuel + 1, l, size => l.take size :: chunkedAux fuel (l.drop size) size

/-- Python `chunked(lst, size)` for `size > 0`. -/
def chunked {α : Type} (l : List α) (size : Nat) : List (List α) :=
  chunkedAux l.length l size

/-- Line 167: fetch page size. -/
def BATCH : Nat := 200

/-- Line 213: mutation sub-batch size. -/
def MULTI_BATCH : Nat := 50

/-- Lines 167–197: page the note list in groups of `BATCH`, plan each page,
sharing one `ipa_cache` across the whole run, starting from the empty cache. -/
def pipelinePlan (t : String → String) (cfg : Config) (notes : List NoteInfo) :
    List PlannedUpdate × TransState :=
  (chunked notes BATCH).foldl
    (fun acc batch =>
      (acc.1 ++ (planNotes t cfg batch acc.2).1, (planNotes t cfg batch acc.2).2))
    ([], initState)

/-- Effect on the remote store of the `updateNoteFields` payload of one
planned update: each `(name, value)` pair in its `fields` map overwrites that
field of the note with the matching id; other notes and fields are untouched. -/
def applyUpdate (u : PlannedUpdate) (n : NoteInfo) : NoteInfo :=
  if u.id = n.noteId then
    { n with
      fields := fun k => match List.lookup k u.fields with
        | some v => some v
        | none => n.fields k }
  else n

/-- Apply a list of updates, in order, to every note of a store snapshot. -/
def applyUpdates (ups : List PlannedUpdate) (notes : List NoteInfo) : List NoteInfo :=
  notes.map (fun n => ups.foldl (fun m u => applyUpdate u m) n)

/-! ## The batch mutator (lines 211–219)

The remote store is abstracted as a function from one "multi" request (the
sub-batch of updates it carries) to the `error` field of its response, `none`
meaning success.  `anki_invoke` raises `RuntimeError(data["error"])` on a
non-null error (lines 23–24), which aborts the loop at that request. -/

/-- Issue one "multi" request per sub-batch, in order, stopping at the first
request whose response carries an error.  Returns the list of requests
actually issued and the error (if any) that aborted the loop. -/
def runMutation (store : List PlannedUpdate → Option String) :
    List (List PlannedUpdate) → List (List PlannedUpdate) × Option String
  | [] => ([], none)
  | b :: rest =>
      match store b with
      | some e => ([b], some e)
      | none =>
          let (sent, r) := runMutation store rest
          (b :: sent, r)

/-- Lines 213–219: group the planned updates into sub-batches of
`MULTI_BATCH` and issue them. -/
def mutateAll (store : List PlannedUpdate → Option String)
    (ups : List PlannedUpdate) : List (List PlannedUpdate) × Option String :=
  runMutation store (chunked ups MULTI_BATCH)

/-! ## `ipa_of_text` (lines 72–88) as far as error propagation is concerned

The subprocess call is abstracted by its observable outcome: normal output,
`CalledProcessError` (non-zero exit, with captured output since
`stderr=subprocess.STDOUT`), or the `FileNotFoundError` the OS raises when
the command cannot be found on the execution path. -/

/-- Outcome of `subprocess.check_output` for the espeak command. -/
inductive ToolResult where
  | ok (out : String)
  | exitNonZero (out : String)
  | notFound
deriving DecidableEq, Repr

/-- The Python exception escaping `ipa_of_text`:
`runtimeError msg` is the `RuntimeError` raised at line 86 (the script's
transcription error), `fileNotFoundError` the OS error that propagates
uncaught when the tool is missing. -/
inductive PyError where
  | runtimeError (msg : String)
  | fileNotFoundError
deriving DecidableEq, Repr

/-- Line 77: `voice_map = {"en-us": "en-us", "en-gb": "en-gb"}`;
`voice = voice_map.get(lang.lower(), lang)`. -/
def voiceOf (lang : String) : String :=
  if pyLower lang = "en-us" then "en-us"
  else if pyLower lang = "en-gb" then "en-gb"
  else lang

/-- Line 45/64–69: `clean_ipa`—optionally delete zero-width characters, then
collapse whitespace runs (`" ".join(s.split())`) and strip. -/
def clean_ipa (s : String) (strip_zero_width : Bool) : String :=
  let zw : List Char := [⟨0x200b, by decide⟩, ⟨0x200c, by decide⟩, ⟨0x200d, by decide⟩, ⟨0xfeff, by decide⟩]
  let s1 := if strip_zero_width then String.mk (s.data.filter (fun c => ¬ c ∈ zw)) else s
  let words := (s1.data.splitOnP isSpaceChar).filter (fun w => w ≠ [])
  pyStrip (pyJoin " " (words.map String.mk))

/-- `ipa_of_text` (lines 72–88): trim the text, return `""` without running
the tool on empty input, otherwise run the tool and either clean its output,
or convert a non-zero exit into `RuntimeError(f"espeak failed: {e.output.strip()}")`,
or let the `FileNotFoundError` escape.  `run` abstracts
`subprocess.check_output` on the constructed command; the binary-path
discovery of `_resolve_espeak_cmd` (lines 48–52) is environment-dependent
and out of scope, so the command head is modelled as `espeak`. -/
def ipa_of_text (run : List String → ToolResult) (text : String) (lang : String)
    (strip_zero_width : Bool) : Except PyError String :=
  if pyStrip text = "" then .ok ""
  else
    match run ["espeak", "-q", "-v" ++ voiceOf lang, "--ipa=3", pyStrip text] with
    | .ok out => .ok (clean_ipa out strip_zero_width)
    | .exitNonZero out => .error (.runtimeError ("espeak failed: " ++ pyStrip out))
    | .notFound => .error .fileNotFoundError

/-! ## Basic properties of the string primitives -/

lemma dropWhile_head?_false {α : Type} (p : α → Bool) (l : List α) {c : α}
    (h : (l.dropWhile p).head? = some c) : p c = false := by
  have h2 := List.head?_dropWhile_not p l
  rw [h] at h2
  exact h2

lemma trimChars_getLast? {l : List Char} {c : Char}
    (h : (trimChars l).getLast? = some c) : isSpaceChar c = false := by
  unfold trimChars dropTrailing at h
  rw [List.getLast?_reverse] at h
  exact dropWhile_head?_false _ _ h

lemma trimChars_head? {l : List Char} {c : Char}
    (h : (trimChars l).head? = some c) : isSpaceChar c = false := by
  have hsuf : ((dropLeading l).reverse.dropWhile isSpaceChar).reverse <+: dropLeading l := by
    rw [← List.reverse_suffix]
    simpa using List.dropWhile_suffix (l := (dropLeading l).reverse) isSpaceChar
  obtain ⟨t, ht⟩ := hsuf
  have hh : (((dropLeading l).reverse.dropWhile isSpaceChar).reverse).head? = some c := h
  have hmhead : (dropLeading l).head? = some c := by
    rw [← ht, List.head?_append, hh]
    rfl
  exact dropWhile_head?_false isSpaceChar l hmhead

lemma dropWhile_eq_self_of_head? {α : Type} (p : α → Bool) (l : List α)
    (h : ∀ c, l.head? = some c → p c = false) : l.dropWhile p = l := by
  cases l with
  | nil => rfl
  | cons a l => simp [List.dropWhile, h a rfl]

lemma trimChars_eq_self {l : List Char}
    (h1 : ∀ c, l.head? = some c → isSpaceChar c = false)
    (h2 : ∀ c, l.getLast? = some c → isSpaceChar c = false) :
    trimChars l = l := by
  unfold trimChars dropLeading dropTrailing
  rw [dropWhile_eq_self_of_head? _ _ h1]
  rw [dropWhile_eq_self_of_head? _ _
    (fun c hc => h2 c (by rwa [List.head?_reverse] at hc))]
  exact List.reverse_reverse l

lemma trimChars_idem (l : List Char) : trimChars (trimChars l) = trimChars l :=
  trimChars_eq_self (fun _ hc => trimChars_head? hc) (fun _ hc => trimChars_getLast? hc)

lemma pyStrip_data (s : String) : (pyStrip s).data = trimChars s.data := rfl

lemma pyStrip_idem (s : String) : pyStrip (pyStrip s) = pyStrip s := by
  apply String.ext
  rw [pyStrip_data, pyStrip_data]
  exact trimChars_idem s.data

lemma data_ne_nil_of_ne_empty {x : String} (h : x ≠ "") : x.data ≠ [] := by
  intro h0
  exact h (String.ext h0)

/-- A composed value `x ++ " (" ++ j ++ ")"` with a trimmed non-empty `x`
is itself trimmed. -/
lemma pyStrip_paren {x : String} (j : String) (hx : pyStrip x = x) (hne : x ≠ "") :
    pyStrip (x ++ " (" ++ j ++ ")") = x ++ " (" ++ j ++ ")" := by
  have hxd : trimChars x.data = x.data := by
    rw [← pyStrip_data, hx]
  apply String.ext
  rw [pyStrip_data]
  apply trimChars_eq_self
  · intro c hc
    have hdata : (x ++ " (" ++ j ++ ")").data
        = x.data ++ (" (".data ++ (j.data ++ ")".data)) := by
      simp [String.data_append]
    rw [hdata, List.head?_append] at hc
    cases hhd : x.data.head? with
    | none =>
        exact absurd (List.head?_eq_none_iff.mp hhd) (data_ne_nil_of_ne_empty hne)
    | some d =>
        rw [hhd] at hc
        have hdc : d = c := by simpa using hc
        subst hdc
        exact @trimChars_head? x.data _ (by rw [hxd]; exact hhd)
  · intro c hc
    have hdata : (x ++ " (" ++ j ++ ")").data
        = (x.data ++ " (".data ++ j.data) ++ [')'] := by
      simp [String.data_append]
    rw [hdata, List.getLast?_concat] at hc
    have hcp : ')' = c := by simpa using hc
    subst hcp
    decide

/-! ## Cache key and cache consistency -/

/-- For a fixed language and flag—as within one run—the cache key determines
the item text. -/
lemma cacheKey_inj_item {lang : String} {flag : Bool} {i j : String}
    (h : cacheKey lang flag i = cacheKey lang flag j) : i = j := by
  unfold cacheKey at h
  have hd := congrArg String.data h
  simp only [String.data_append, List.append_assoc] at hd
  exact String.ext
    (List.append_cancel_left (List.append_cancel_left
      (List.append_cancel_left (List.append_cancel_left hd))))

/-- A cache is consistent with the transcription function `t` when every
entry stored under an item's key holds `t` of that item. -/
def Consistent (t : String → String) (lang : String) (flag : Bool)
    (c : List (String × String)) : Prop :=
  ∀ item v, List.lookup (cacheKey lang flag item) c = some v → v = t item

lemma consistent_nil (t : String → String) (lang : String) (flag : Bool) :
    Consistent t lang flag [] := by
  intro item v h
  simp [List.lookup] at h

/-- The bookkeeping invariant for counting tool invocations: the log has no
duplicate text, and every logged text has a cache entry under its key. -/
def KeysLogged (lang : String) (flag : Bool) (st : TransState) : Prop :=
  st.log.Nodup ∧ ∀ s ∈ st.log, List.lookup (cacheKey lang flag s) st.cache ≠ none

lemma keysLogged_init (lang : String) (flag : Bool) : KeysLogged lang flag initState := by
  constructor
  · exact List.nodup_nil
  · intro s hs
    simp [initState] at hs

lemma getOrCompute_fst {t : String → String} {lang : String} {flag : Bool}
    {item : String} {st : TransState} (h : Consistent t lang flag st.cache) :
    (getOrCompute t lang flag item st).1 = t item := by
  unfold getOrCompute
  cases hl : List.lookup (cacheKey lang flag item) st.cache with
  | none => simp [hl]
  | some v => simpa [hl] using h item v hl

lemma getOrCompute_consistent {t : String → String} {lang : String} {flag : Bool}
    {item : String} {st : TransState} (h : Consistent t lang flag st.cache) :
    Consistent t lang flag (getOrCompute t lang flag item st).2.cache := by
  unfold getOrCompute
  cases hl : List.lookup (cacheKey lang flag item) st.cache with
  | some v => simpa [hl] using h
  | none =>
      simp only [hl]
      intro item2 v2 h2
      rw [List.lookup_cons] at h2
      by_cases hk : cacheKey lang flag item2 = cacheKey lang flag item
      · have heq : item2 = item := cacheKey_inj_item hk
        have hbeq : (cacheKey lang flag item2 == cacheKey lang flag item) = true :=
          beq_iff_eq.mpr hk
        rw [hbeq] at h2
        simp at h2
        rw [← h2, heq]
      · have hbeq : (cacheKey lang flag item2 == cacheKey lang flag item) = false :=
          beq_eq_false_iff_ne.mpr hk
        rw [hbeq] at h2
        exact h item2 v2 h2

lemma getOrCompute_keysLogged {t : String → String} {lang : String} {flag : Bool}
    {item : String} {st : TransState} (h : KeysLogged lang flag st) :
    KeysLogged lang flag (getOrCompute t lang flag item st).2 := by
  unfold getOrCompute
  cases hl : List.lookup (cacheKey lang flag item) st.cache with
  | some v => simpa [hl] using h
  | none =>
      simp only [hl]
      constructor
      · rw [List.nodup_append]
        refine ⟨h.1, List.nodup_singleton item, ?_⟩
        intro s hs hs1
        have : s = item := by simpa using hs1
        subst this
        exact h.2 s hs hl
      · intro s hs
        rw [List.mem_append] at hs
        rw [List.lookup_cons]
        by_cases hk : cacheKey lang flag s = cacheKey lang flag item
        · rw [beq_iff_eq.mpr hk]
          simp
        · rw [beq_eq_false_iff_ne.mpr hk]
          simp only []
          rcases hs with hs | hs
          · exact h.2 s hs
          · have : s = item := by simpa using hs
            subst this
            exact absurd rfl hk

lemma getOrCompute_log_extends {t : String → String} {lang : String} {flag : Bool}
    {item : String} {st : TransState} :
    (getOrCompute t lang flag item st).2.log = st.log ∨
    (getOrCompute t lang flag item st).2.log = st.log ++ [item] := by
  unfold getOrCompute
  cases hl : List.lookup (cacheKey lang flag item) st.cache with
  | some v => left; simp [hl]
  | none => right; simp [hl]

/-! ## Pure characterization of the composed value

On a cache consistent with `t`, the item loop returns exactly `items.map t`
and `make_target_value` computes a value that depends only on `t` and the
source string. -/

lemma transcribeItems_fst {t : String → String} {lang : String} {flag : Bool} :
    ∀ (items : List String) (st : TransState), Consistent t lang flag st.cache →
      (transcribeItems t lang flag items st).1 = items.map t
  | [], _, _ => rfl
  | item :: rest, st, h => by
      unfold transcribeItems
      have h1 := @getOrCompute_fst t lang flag item st h
      have h2 := @getOrCompute_consistent t lang flag item st h
      have ih := transcribeItems_fst rest (getOrCompute t lang flag item st).2 h2
      simp [h1, ih]

lemma transcribeItems_consistent {t : String → String} {lang : String} {flag : Bool} :
    ∀ (items : List String) (st : TransState), Consistent t lang flag st.cache →
      Consistent t lang flag (transcribeItems t lang flag items st).2.cache
  | [], _, h => h
  | item :: rest, st, h => by
      unfold transcribeItems
      have h2 := @getOrCompute_consistent t lang flag item st h
      have ih := transcribeItems_consistent rest (getOrCompute t lang flag item st).2 h2
      simpa using ih

lemma transcribeItems_keysLogged {t : String → String} {lang : String} {flag : Bool} :
    ∀ (items : List String) (st : TransState), KeysLogged lang flag st →
      KeysLogged lang flag (transcribeItems t lang flag items st).2
  | [], _, h => h
  | item :: rest, st, h => by
      unfold transcribeItems
      have h2 := @getOrCompute_keysLogged t lang flag item st h
      have ih := @transcribeItems_keysLogged t lang flag
        rest (getOrCompute t lang flag item st).2 h2
      simpa using ih

/-- The value `make_target_value` computes, as a pure function of the
transcription function and the source string. -/
def composePure (t : String → String) (x : String) : String :=
  if pyStrip x = "" then ""
  else if splitItems (pyStrip x) = [] then ""
  else if pyJoin ", " (((splitItems (pyStrip x)).map t).filter (fun i => i ≠ "")) = ""
    then pyStrip x
  else pyStrip x ++ " ("
    ++ pyJoin ", " (((splitItems (pyStrip x)).map t).filter (fun i => i ≠ "")) ++ ")"

lemma make_target_value_fst {t : String → String} {lang : String} {flag : Bool}
    {x y : String} {st : TransState} (h : Consistent t lang flag st.cache) :
    (make_target_value t lang flag x y st).1 = composePure t x := by
  unfold make_target_value composePure
  by_cases h1 : pyStrip x = ""
  · simp [h1]
  · by_cases h2 : splitItems (pyStrip x) = []
    · simp [h1, h2]
    · have hfst := @transcribeItems_fst t lang flag (splitItems (pyStrip x)) st h
      simp [h1, h2, hfst]

lemma make_target_value_consistent {t : String → String} {lang : String} {flag : Bool}
    {x y : String} {st : TransState} (h : Consistent t lang flag st.cache) :
    Consistent t lang flag (make_target_value t lang flag x y st).2.cache := by
  unfold make_target_value
  by_cases h1 : pyStrip x = ""
  · simpa [h1] using h
  · by_cases h2 : splitItems (pyStrip x) = []
    · simpa [h1, h2] using h
    · have hc := @transcribeItems_consistent t lang flag (splitItems (pyStrip x)) st h
      simpa [h1, h2] using hc

lemma make_target_value_keysLogged {t : String → String} {lang : String} {flag : Bool}
    {x y : String} {st : TransState} (h : KeysLogged lang flag st) :
    KeysLogged lang flag (make_target_value t lang flag x y st).2 := by
  unfold make_target_value
  by_cases h1 : pyStrip x = ""
  · simpa [h1] using h
  · by_cases h2 : splitItems (pyStrip x) = []
    · simpa [h1, h2] using h
    · have hc := @transcribeItems_keysLogged t lang flag (splitItems (pyStrip x)) st h
      simpa [h1, h2] using hc

lemma pyStrip_empty : pyStrip "" = "" := rfl

/-- The three shapes the composed value can take. -/
lemma composePure_cases (t : String → String) (x : String) :
    composePure t x = "" ∨ composePure t x = pyStrip x ∨
      (pyStrip x ≠ "" ∧ ∃ j, composePure t x = pyStrip x ++ " (" ++ j ++ ")") := by
  by_cases h1 : pyStrip x = ""
  · left; unfold composePure; rw [if_pos h1]
  · by_cases h2 : splitItems (pyStrip x) = []
    · left; unfold composePure; rw [if_neg h1, if_pos h2]
    · by_cases h3 : pyJoin ", "
          (((splitItems (pyStrip x)).map t).filter (fun i => i ≠ "")) = ""
      · right; left; unfold composePure; rw [if_neg h1, if_neg h2, if_pos h3]
      · right; right
        exact ⟨h1, _, by unfold composePure; rw [if_neg h1, if_neg h2, if_neg h3]⟩

/-- The composed value is a trimmed string (needed for the diff on the next
run, which compares against the stripped stored value). -/
lemma composePure_trimmed (t : String → String) (x : String) :
    pyStrip (composePure t x) = composePure t x := by
  rcases composePure_cases t x with h | h | ⟨hne, j, h⟩
  · rw [h]; exact pyStrip_empty
  · rw [h]; exact pyStrip_idem x
  · rw [h]; exact pyStrip_paren j (pyStrip_idem x) hne

/-! ## Pure characterization of the planning loop -/

/-- The candidate decision of the per-note loop body (lines 173–197), as a
pure function of the note. -/
def planNotePure (t : String → String) (cfg : Config) (info : NoteInfo) :
    Option PlannedUpdate :=
  if cfg.onlyIfZEmpty ∧ pyStrip (getFieldValue info.fields cfg.fieldZ) ≠ "" then none
  else if pyStrip (getFieldValue info.fields cfg.fieldX) = "" then none
  else if composePure t (pyStrip (getFieldValue info.fields cfg.fieldX)) ≠ "" ∧
      composePure t (pyStrip (getFieldValue info.fields cfg.fieldX)) ≠
        pyStrip (getFieldValue info.fields cfg.fieldZ) then
    some ⟨info.noteId, [(cfg.fieldZ,
      composePure t (pyStrip (getFieldValue info.fields cfg.fieldX)))]⟩
  else none

lemma planNote_fst {t : String → String} {cfg : Config} {info : NoteInfo}
    {st : TransState} (h : Consistent t cfg.lang cfg.stripZeroWidth st.cache) :
    (planNote t cfg info st).1 = planNotePure t cfg info := by
  unfold planNote planNotePure
  by_cases h1 : cfg.onlyIfZEmpty ∧ pyStrip (getFieldValue info.fields cfg.fieldZ) ≠ ""
  · rw [if_pos h1, if_pos h1]
  · rw [if_neg h1, if_neg h1]
    by_cases h2 : pyStrip (getFieldValue info.fields cfg.fieldX) = ""
    · rw [if_pos h2, if_pos h2]
    · rw [if_neg h2, if_neg h2]
      have hval := @make_target_value_fst t cfg.lang cfg.stripZeroWidth
        (pyStrip (getFieldValue info.fields cfg.fieldX))
        (pyStrip (getFieldValue info.fields cfg.fieldY)) st h
      simp only [hval]
      split <;> rfl

lemma planNote_consistent {t : String → String} {cfg : Config} {info : NoteInfo}
    {st : TransState} (h : Consistent t cfg.lang cfg.stripZeroWidth st.cache) :
    Consistent t cfg.lang cfg.stripZeroWidth (planNote t cfg info st).2.cache := by
  unfold planNote
  by_cases h1 : cfg.onlyIfZEmpty ∧ pyStrip (getFieldValue info.fields cfg.fieldZ) ≠ ""
  · rwa [if_pos h1]
  · rw [if_neg h1]
    by_cases h2 : pyStrip (getFieldValue info.fields cfg.fieldX) = ""
    · rwa [if_pos h2]
    · rw [if_neg h2]
      have hmk := @make_target_value_consistent t cfg.lang cfg.stripZeroWidth
        (pyStrip (getFieldValue info.fields cfg.fieldX))
        (pyStrip (getFieldValue info.fields cfg.fieldY)) st h
      by_cases h3 : (make_target_value t cfg.lang cfg.stripZeroWidth
            (pyStrip (getFieldValue info.fields cfg.fieldX))
            (pyStrip (getFieldValue info.fields cfg.fieldY)) st).1 ≠ "" ∧
          (make_target_value t cfg.lang cfg.stripZeroWidth
            (pyStrip (getFieldValue info.fields cfg.fieldX))
            (pyStrip (getFieldValue info.fields cfg.fieldY)) st).1 ≠
            pyStrip (getFieldValue info.fields cfg.fieldZ)
      · rwa [if_pos h3]
      · rwa [if_neg h3]

lemma planNote_keysLogged {t : String → String} {cfg : Config} {info : NoteInfo}
    {st : TransState} (h : KeysLogged cfg.lang cfg.stripZeroWidth st) :
    KeysLogged cfg.lang cfg.stripZeroWidth (planNote t cfg info st).2 := by
  unfold planNote
  by_cases h1 : cfg.onlyIfZEmpty ∧ pyStrip (getFieldValue info.fields cfg.fieldZ) ≠ ""
  · rwa [if_pos h1]
  · rw [if_neg h1]
    by_cases h2 : pyStrip (getFieldValue info.fields cfg.fieldX) = ""
    · rwa [if_pos h2]
    · rw [if_neg h2]
      have hmk := @make_target_value_keysLogged t cfg.lang cfg.stripZeroWidth
        (pyStrip (getFieldValue info.fields cfg.fieldX))
        (pyStrip (getFieldValue info.fields cfg.fieldY)) st h
      by_cases h3 : (make_target_value t cfg.lang cfg.stripZeroWidth
            (pyStrip (getFieldValue info.fields cfg.fieldX))
            (pyStrip (getFieldValue info.fields cfg.fieldY)) st).1 ≠ "" ∧
          (make_target_value t cfg.lang cfg.stripZeroWidth
            (pyStrip (getFieldValue info.fields cfg.fieldX))
            (pyStrip (getFieldValue info.fields cfg.fieldY)) st).1 ≠
            pyStrip (getFieldValue info.fields cfg.fieldZ)
      · rwa [if_pos h3]
      · rwa [if_neg h3]

/-- Shape of any produced candidate: it carries the note's id and sets the
single target field to the (non-empty) composed value, which differs from the
stripped stored value. -/
lemma planNotePure_some {t : String → String} {cfg : Config} {info : NoteInfo}
    {u : PlannedUpdate} (h : planNotePure t cfg info = some u) :
    u.id = info.noteId ∧
    u.fields = [(cfg.fieldZ, composePure t (pyStrip (getFieldValue info.fields cfg.fieldX)))] ∧
    composePure t (pyStrip (getFieldValue info.fields cfg.fieldX)) ≠ "" ∧
    composePure t (pyStrip (getFieldValue info.fields cfg.fieldX)) ≠
      pyStrip (getFieldValue info.fields cfg.fieldZ) := by
  unfold planNotePure at h
  by_cases h1 : cfg.onlyIfZEmpty ∧ pyStrip (getFieldValue info.fields cfg.fieldZ) ≠ ""
  · rw [if_pos h1] at h; exact absurd h (by simp)
  · rw [if_neg h1] at h
    by_cases h2 : pyStrip (getFieldValue info.fields cfg.fieldX) = ""
    · rw [if_pos h2] at h; exact absurd h (by simp)
    · rw [if_neg h2] at h
      by_cases h3 : composePure t (pyStrip (getFieldValue info.fields cfg.fieldX)) ≠ "" ∧
          composePure t (pyStrip (getFieldValue info.fields cfg.fieldX)) ≠
            pyStrip (getFieldValue info.fields cfg.fieldZ)
      · rw [if_pos h3] at h
        have hu : u = ⟨info.noteId, [(cfg.fieldZ,
            composePure t (pyStrip (getFieldValue info.fields cfg.fieldX)))]⟩ := by
          cases h; rfl
        subst hu
        exact ⟨rfl, rfl, h3.1, h3.2⟩
      · rw [if_neg h3] at h; exact absurd h (by simp)

lemma planNotes_fst {t : String → String} {cfg : Config} :
    ∀ (notes : List NoteInfo) (st : TransState),
      Consistent t cfg.lang cfg.stripZeroWidth st.cache →
      (planNotes t cfg notes st).1 = notes.filterMap (planNotePure t cfg)
  | [], _, _ => rfl
  | info :: rest, st, h => by
      unfold planNotes
      have h1 := @planNote_fst t cfg info st h
      have h2 := @planNote_consistent t cfg info st h
      have ih := planNotes_fst rest (planNote t cfg info st).2 h2
      rw [List.filterMap_cons]
      cases hu : planNotePure t cfg info with
      | none => simp [h1, hu, ih]
      | some v => simp [h1, hu, ih]

lemma planNotes_consistent {t : String → String} {cfg : Config} :
    ∀ (notes : List NoteInfo) (st : TransState),
      Consistent t cfg.lang cfg.stripZeroWidth st.cache →
      Consistent t cfg.lang cfg.stripZeroWidth (planNotes t cfg notes st).2.cache
  | [], _, h => h
  | info :: rest, st, h => by
      unfold planNotes
      have h2 := @planNote_consistent t cfg info st h
      exact planNotes_consistent rest (planNote t cfg info st).2 h2

lemma planNotes_keysLogged {t : String → String} {cfg : Config} :
    ∀ (notes : List NoteInfo) (st : TransState),
      KeysLogged cfg.lang cfg.stripZeroWidth st →
      KeysLogged cfg.lang cfg.stripZeroWidth (planNotes t cfg notes st).2
  | [], _, h => h
  | info :: rest, st, h => by
      unfold planNotes
      have h2 := @planNote_keysLogged t cfg info st h
      exact planNotes_keysLogged rest (planNote t cfg info st).2 h2

lemma planNotes_append {t : String → String} {cfg : Config} :
    ∀ (a b : List NoteInfo) (st : TransState),
      planNotes t cfg (a ++ b) st =
        ((planNotes t cfg a st).1 ++ (planNotes t cfg b (planNotes t cfg a st).2).1,
         (planNotes t cfg b (planNotes t cfg a st).2).2)
  | [], b, st => by simp [planNotes]
  | info :: rest, b, st => by
      rw [List.cons_append]
      simp only [planNotes]
      rw [planNotes_append rest b]
      simp [List.append_assoc]

/-! ## Chunking and the paged pipeline -/

lemma chunkedAux_flatten {α : Type} :
    ∀ (fuel : Nat) (l : List α) (size : Nat), 0 < size → l.length ≤ fuel →
      (chunkedAux fuel l size).flatten = l := by
  intro fuel
  induction fuel with
  | zero =>
      intro l size _ hl
      have hnil : l = [] := List.eq_nil_of_length_eq_zero (Nat.le_zero.mp hl)
      subst hnil
      rfl
  | succ f ih =>
      intro l size hs hl
      cases l with
      | nil => rfl
      | cons c cs =>
          simp only [chunkedAux, List.flatten_cons]
          rw [ih _ size hs (by rw [List.length_drop]; simp at hl ⊢; omega)]
          exact List.take_append_drop size (c :: cs)

lemma chunked_flatten {α : Type} (l : List α) (size : Nat) (h : 0 < size) :
    (chunked l size).flatten = l :=
  chunkedAux_flatten l.length l size h (Nat.le_refl _)

lemma chunkedAux_mem_length {α : Type} :
    ∀ (fuel : Nat) (l : List α) (size : Nat) (b : List α),
      b ∈ chunkedAux fuel l size → b.length ≤ size := by
  intro fuel
  induction fuel with
  | zero =>
      intro l size b hb
      cases l <;> simp [chunkedAux] at hb
  | succ f ih =>
      intro l size b hb
      cases l with
      | nil => simp [chunkedAux] at hb
      | cons c cs =>
          simp only [chunkedAux, List.mem_cons] at hb
          rcases hb with hb | hb
          · subst hb; exact List.length_take_le _ _
          · exact ih _ size b hb

lemma chunked_mem_length {α : Type} {l : List α} {size : Nat} {b : List α}
    (hb : b ∈ chunked l size) : b.length ≤ size :=
  chunkedAux_mem_length l.length l size b hb

lemma planFoldAux {t : String → String} {cfg : Config} :
    ∀ (bs : List (List NoteInfo)) (acc : List PlannedUpdate) (st : TransState),
      bs.foldl (fun acc batch =>
          (acc.1 ++ (planNotes t cfg batch acc.2).1, (planNotes t cfg batch acc.2).2))
        (acc, st)
      = (acc ++ (planNotes t cfg bs.flatten st).1, (planNotes t cfg bs.flatten st).2)
  | [], acc, st => by simp [planNotes]
  | b :: bs, acc, st => by
      rw [List.foldl_cons, planFoldAux bs, List.flatten_cons, planNotes_append]
      simp [List.append_assoc]

/-- Paging through the notes in groups of 200 with a shared cache computes
the same plan, in the same order, as one pass over all notes. -/
lemma pipelinePlan_eq_planNotes (t : String → String) (cfg : Config)
    (notes : List NoteInfo) :
    pipelinePlan t cfg notes = planNotes t cfg notes initState := by
  unfold pipelinePlan
  rw [planFoldAux, chunked_flatten _ _ (by norm_num [BATCH])]
  simp

lemma pipelinePlan_fst (t : String → String) (cfg : Config) (notes : List NoteInfo) :
    (pipelinePlan t cfg notes).1 = notes.filterMap (planNotePure t cfg) := by
  rw [pipelinePlan_eq_planNotes]
  exact planNotes_fst notes initState (consistent_nil t cfg.lang cfg.stripZeroWidth)

lemma pipelinePlan_consistent (t : String → String) (cfg : Config) (notes : List NoteInfo) :
    Consistent t cfg.lang cfg.stripZeroWidth (pipelinePlan t cfg notes).2.cache := by
  rw [pipelinePlan_eq_planNotes]
  exact planNotes_consistent notes initState (consistent_nil t cfg.lang cfg.stripZeroWidth)

lemma pipelinePlan_keysLogged (t : String → String) (cfg : Config) (notes : List NoteInfo) :
    KeysLogged cfg.lang cfg.stripZeroWidth (pipelinePlan t cfg notes).2 := by
  rw [pipelinePlan_eq_planNotes]
  exact planNotes_keysLogged notes initState (keysLogged_init cfg.lang cfg.stripZeroWidth)

/-! ## Effect of applying the planned updates -/

lemma applyUpdate_noteId (u : PlannedUpdate) (n : NoteInfo) :
    (applyUpdate u n).noteId = n.noteId := by
  unfold applyUpdate
  split <;> rfl

lemma applyUpdate_of_ne {u : PlannedUpdate} {n : NoteInfo} (h : ¬ u.id = n.noteId) :
    applyUpdate u n = n := by
  unfold applyUpdate
  rw [if_neg h]

lemma applyFold_of_ne {ups : List PlannedUpdate} {n : NoteInfo}
    (h : ∀ u ∈ ups, ¬ u.id = n.noteId) :
    ups.foldl (fun m u => applyUpdate u m) n = n := by
  induction ups with
  | nil => rfl
  | cons u ups ih =>
      rw [List.foldl_cons, applyUpdate_of_ne (h u (List.mem_cons_self u ups))]
      exact ih (fun v hv => h v (List.mem_cons_of_mem _ hv))

lemma applyUpdate_fields_of_id {u : PlannedUpdate} {n : NoteInfo}
    (h : u.id = n.noteId) (k : String) :
    (applyUpdate u n).fields k =
      (match List.lookup k u.fields with
        | some v => some v
        | none => n.fields k) := by
  unfold applyUpdate
  rw [if_pos h]

/-- Any update in the plan carries the id of some note of the list it was
planned from. -/
lemma plan_mem_id {t : String → String} {cfg : Config} {ms : List NoteInfo}
    {u : PlannedUpdate} (hu : u ∈ ms.filterMap (planNotePure t cfg)) :
    ∃ m ∈ ms, u.id = m.noteId := by
  rw [List.mem_filterMap] at hu
  obtain ⟨m, hm, hpm⟩ := hu
  exact ⟨m, hm, (planNotePure_some hpm).1⟩

/-- After the first run's updates are applied, the per-note decision of a
second run with the same configuration and transcription function yields no
candidate, provided the target field is distinct from the source field and
note ids are unique. -/
lemma plan_second_none {t : String → String} {cfg : Config}
    (hxz : cfg.fieldX ≠ cfg.fieldZ) {notes : List NoteInfo}
    (hnd : (notes.map NoteInfo.noteId).Nodup) {n : NoteInfo} (hn : n ∈ notes) :
    planNotePure t cfg
      ((notes.filterMap (planNotePure t cfg)).foldl (fun m u => applyUpdate u m) n)
      = none := by
  obtain ⟨pre, post, hsplit⟩ := List.append_of_mem hn
  subst hsplit
  have hmapnd := hnd
  rw [List.map_append, List.map_cons, List.nodup_append] at hmapnd
  obtain ⟨hnd1, hnd2, hdisj⟩ := hmapnd
  have hpre : ∀ m ∈ pre, ¬ m.noteId = n.noteId := by
    intro m hm heq
    exact hdisj (heq ▸ List.mem_map_of_mem NoteInfo.noteId hm)
      (List.mem_cons_self _ _)
  have hpost : ∀ m ∈ post, ¬ m.noteId = n.noteId := by
    intro m hm heq
    rw [List.nodup_cons] at hnd2
    exact hnd2.1 (heq ▸ List.mem_map_of_mem NoteInfo.noteId hm)
  rw [List.filterMap_append, List.foldl_append]
  have hApre : (pre.filterMap (planNotePure t cfg)).foldl
      (fun m u => applyUpdate u m) n = n := by
    apply applyFold_of_ne
    intro u hu
    obtain ⟨m, hm, hid⟩ := plan_mem_id hu
    rw [hid]
    exact hpre m hm
  rw [hApre, List.filterMap_cons]
  cases hpn : planNotePure t cfg n with
  | none =>
      simp only []
      rw [applyFold_of_ne]
      · exact hpn
      · intro u hu
        obtain ⟨m, hm, hid⟩ := plan_mem_id hu
        rw [hid]
        exact hpost m hm
  | some u =>
      simp only [List.foldl_cons]
      obtain ⟨hid, hflds, hne, hnez⟩ := planNotePure_some hpn
      set c := composePure t (pyStrip (getFieldValue n.fields cfg.fieldX)) with hc
      have hn2id : (applyUpdate u n).noteId = n.noteId := applyUpdate_noteId u n
      rw [applyFold_of_ne (by
        intro v hv
        obtain ⟨m, hm, hidv⟩ := plan_mem_id hv
        rw [hidv, hn2id]
        exact hpost m hm)]
      -- field values of the updated note
      have hfz : (applyUpdate u n).fields cfg.fieldZ = some c := by
        rw [applyUpdate_fields_of_id hid, hflds]
        rw [List.lookup_cons]
        rw [beq_iff_eq.mpr rfl]
      have hfx : (applyUpdate u n).fields cfg.fieldX = n.fields cfg.fieldX := by
        rw [applyUpdate_fields_of_id hid, hflds]
        rw [List.lookup_cons]
        rw [beq_eq_false_iff_ne.mpr hxz]
        simp [List.lookup]
      have hz2 : pyStrip (getFieldValue (applyUpdate u n).fields cfg.fieldZ) = c := by
        rw [getFieldValue, hfz, Option.getD_some, hc]
        exact composePure_trimmed t _
      have hx2 : getFieldValue (applyUpdate u n).fields cfg.fieldX
          = getFieldValue n.fields cfg.fieldX := by
        rw [getFieldValue, getFieldValue, hfx]
      unfold planNotePure
      by_cases h1 : cfg.onlyIfZEmpty ∧
          pyStrip (getFieldValue (applyUpdate u n).fields cfg.fieldZ) ≠ ""
      · rw [if_pos h1]
      · rw [if_neg h1]
        by_cases h2 : pyStrip (getFieldValue (applyUpdate u n).fields cfg.fieldX) = ""
        · rw [if_pos h2]
        · rw [if_neg h2]
          rw [if_neg]
          rw [hx2, hz2]
          intro hcontra
          exact hcontra.2 hc.symm

/-! ## Joining non-empty parts -/

lemma pyJoin_ne_empty : ∀ {l : List String}, l ≠ [] → (∀ s ∈ l, s ≠ "") →
    pyJoin ", " l ≠ ""
  | [], hne, _ => absurd rfl hne
  | [a], _, h => by simpa [pyJoin] using h a (by simp)
  | a :: b :: rest, _, h => by
      show a ++ ", " ++ pyJoin ", " (b :: rest) ≠ ""
      intro hcontra
      have hlen := congrArg String.length hcontra
      rw [String.length_append, String.length_append] at hlen
      have h2 : (", " : String).length = 2 := rfl
      rw [h2] at hlen
      simp at hlen

lemma filtered_map_eq_nil_iff (t : String → String) (items : List String) :
    ((items.map t).filter (fun i => i ≠ "")) = [] ↔ ∀ i ∈ items, t i = "" := by
  rw [List.filter_eq_nil_iff]
  constructor
  · intro h i hi
    have := h (t i) (List.mem_map_of_mem t hi)
    simpa using this
  · intro h s hs
    rw [List.mem_map] at hs
    obtain ⟨i, hi, rfl⟩ := hs
    simp [h i hi]

/-! # Claims -/

/-- The transcription function for the C1 counterexample: transcribes `run`,
and also gives a non-empty transcription to the already-composed value. -/
def tRun : String → String := fun s =>
  if s = "run" then "rʌn" else if s = "run (rʌn)" then "ɹʌn" else ""

/-- A note whose `Synonyms` field (the default source AND target) is `run`. -/
def noteRun : NoteInfo := ⟨1, fun k => if k = "Synonyms" then some "run" else none⟩

/-- C1 is FALSE as stated: with the default configuration, whose source and
target field are both `"Synonyms"`, running the pipeline a second time on the
store produced by applying the first run's updates plans another update — the
first run overwrites the source field with the composed value, and the second
run re-transcribes that composed value, so the diff at step 6 yields a new
candidate instead of none. -/
theorem C1_counterexample :
    (pipelinePlan tRun defaultConfig [noteRun]).1
        = [⟨1, [("Synonyms", "run (rʌn)")]⟩] ∧
    (pipelinePlan tRun defaultConfig
        (applyUpdates (pipelinePlan tRun defaultConfig [noteRun]).1 [noteRun])).1
        = [⟨1, [("Synonyms", "run (rʌn) (ɹʌn)")]⟩] := by
  constructor
  · decide
  · decide

/-- C1 (amended): running the pipeline twice in succession with no external
state change produces zero planned updates on the second run, PROVIDED the
configured target field differs from the source field (so the first run's
updates leave every source field untouched) and the notes carry distinct ids.
In the default configuration, where source and target are the same field
`"Synonyms"`, idempotence fails (see the counterexample). -/
theorem C1_idempotent_amended (t : String → String) (cfg : Config)
    (hxz : cfg.fieldX ≠ cfg.fieldZ) (notes : List NoteInfo)
    (hnd : (notes.map NoteInfo.noteId).Nodup) :
    (pipelinePlan t cfg (applyUpdates (pipelinePlan t cfg notes).1 notes)).1 = [] := by
  rw [pipelinePlan_fst, List.filterMap_eq_nil_iff]
  intro n2 hn2
  unfold applyUpdates at hn2
  rw [pipelinePlan_fst, List.mem_map] at hn2
  obtain ⟨n, hn, rfl⟩ := hn2
  exact plan_second_none hxz hnd hn

/-- A configuration whose target field `Back` differs from the source field
`Front`. -/
def cfgFrontBack : Config := ⟨"Front", "Synonyms IPA", "Back", "en-us", false, false⟩

/-- A note with distinct source and target fields. -/
def noteFrontBack : NoteInfo :=
  ⟨1, fun k => if k = "Front" then some "run"
    else if k = "Back" then some "" else none⟩

theorem C1_idempotent_amended_witness :
    cfgFrontBack.fieldX ≠ cfgFrontBack.fieldZ ∧
    (([noteFrontBack].map NoteInfo.noteId).Nodup) ∧
    (pipelinePlan tRun cfgFrontBack
      (applyUpdates (pipelinePlan tRun cfgFrontBack [noteFrontBack]).1
        [noteFrontBack])).1 = [] :=
  ⟨by decide, by decide,
    C1_idempotent_amended tRun cfgFrontBack (by decide) [noteFrontBack] (by decide)⟩

/-- A transcription function yielding only empty transcriptions. -/
def tEmpty : String → String := fun _ => ""

/-- A note whose stored target value `run ` differs from the would-be composed
value `run` only in a trailing space. -/
def noteTrailingSpace : NoteInfo :=
  ⟨2, fun k => if k = "Front" then some "run"
    else if k = "Back" then some "run " else none⟩

/-- C2 is FALSE as stated: the code compares the composed value against the
STRIPPED stored target value (line 179 applies `.strip()` to `z`), not the
raw one.  Here the composed value `run` differs from the raw stored target
`run ` (trailing space), yet the run plans no candidate. -/
theorem C2_counterexample :
    (make_target_value tEmpty "en-us" false
        (pyStrip (getFieldValue noteTrailingSpace.fields "Front"))
        (pyStrip (getFieldValue noteTrailingSpace.fields "Synonyms IPA"))
        initState).1
      ≠ getFieldValue noteTrailingSpace.fields "Back" ∧
    (pipelinePlan tEmpty cfgFrontBack [noteTrailingSpace]).1 = [] := by
  constructor
  · decide
  · decide

/-- C2 (amended): once the skip conditions have passed (steps 1–3), a
candidate is produced if and only if the composed value is non-empty AND
differs from the STRIPPED current target field value; a stored target that
differs from the composed value only in leading/trailing whitespace
suppresses the candidate. -/
theorem C2_candidate_iff (t : String → String) (cfg : Config) (info : NoteInfo)
    (st : TransState) (hc : Consistent t cfg.lang cfg.stripZeroWidth st.cache)
    (h1 : ¬ (cfg.onlyIfZEmpty ∧ pyStrip (getFieldValue info.fields cfg.fieldZ) ≠ ""))
    (h2 : pyStrip (getFieldValue info.fields cfg.fieldX) ≠ "") :
    ((planNote t cfg info st).1).isSome = true ↔
      (composePure t (pyStrip (getFieldValue info.fields cfg.fieldX)) ≠ "" ∧
       composePure t (pyStrip (getFieldValue info.fields cfg.fieldX)) ≠
         pyStrip (getFieldValue info.fields cfg.fieldZ)) := by
  rw [planNote_fst hc]
  unfold planNotePure
  rw [if_neg h1, if_neg h2]
  by_cases h3 : composePure t (pyStrip (getFieldValue info.fields cfg.fieldX)) ≠ "" ∧
      composePure t (pyStrip (getFieldValue info.fields cfg.fieldX)) ≠
        pyStrip (getFieldValue info.fields cfg.fieldZ)
  · rw [if_pos h3]
    simpa using h3
  · rw [if_neg h3]
    simpa using h3

theorem C2_candidate_iff_witness :
    ¬ (cfgFrontBack.onlyIfZEmpty ∧
        pyStrip (getFieldValue noteFrontBack.fields cfgFrontBack.fieldZ) ≠ "") ∧
    pyStrip (getFieldValue noteFrontBack.fields cfgFrontBack.fieldX) ≠ "" ∧
    (((planNote tRun cfgFrontBack noteFrontBack initState).1).isSome = true ↔
      (composePure tRun (pyStrip (getFieldValue noteFrontBack.fields cfgFrontBack.fieldX)) ≠ "" ∧
       composePure tRun (pyStrip (getFieldValue noteFrontBack.fields cfgFrontBack.fieldX)) ≠
         pyStrip (getFieldValue noteFrontBack.fields cfgFrontBack.fieldZ))) :=
  ⟨by decide, by decide,
    C2_candidate_iff tRun cfgFrontBack noteFrontBack initState
      (consistent_nil tRun cfgFrontBack.lang cfgFrontBack.stripZeroWidth)
      (by decide) (by decide)⟩

/-- C3: for a source value whose trimmed form is non-empty and whose
comma-split item list is non-empty, the composed value is the trimmed source
alone when every item transcribes to the empty string, and otherwise the
trimmed source followed by a space and the non-empty transcriptions joined
with `", "` in parentheses, the trimmed source preserved verbatim in front. -/
theorem C3_compose_structure (t : String → String) (lang : String) (flag : Bool)
    (x y : String) (st : TransState) (hc : Consistent t lang flag st.cache)
    (hx : pyStrip x ≠ "") (hitems : splitItems (pyStrip x) ≠ []) :
    (make_target_value t lang flag x y st).1 =
      if ∀ i ∈ splitItems (pyStrip x), t i = "" then pyStrip x
      else pyStrip x ++ " ("
        ++ pyJoin ", " (((splitItems (pyStrip x)).map t).filter (fun i => i ≠ "")) ++ ")" := by
  rw [make_target_value_fst hc]
  unfold composePure
  rw [if_neg hx, if_neg hitems]
  by_cases hall : ∀ i ∈ splitItems (pyStrip x), t i = ""
  · rw [if_pos hall]
    rw [if_pos]
    rw [(filtered_map_eq_nil_iff t (splitItems (pyStrip x))).mpr hall]
    rfl
  · rw [if_neg hall]
    rw [if_neg]
    apply pyJoin_ne_empty
    · intro hnil
      exact hall ((filtered_map_eq_nil_iff t (splitItems (pyStrip x))).mp hnil)
    · intro s hs
      simpa using List.of_mem_filter hs

theorem C3_compose_structure_witness :
    pyStrip "run, jog" ≠ "" ∧ splitItems (pyStrip "run, jog") ≠ [] ∧
    (make_target_value (fun s => if s = "run" then "rʌn" else if s = "jog" then "dʒɒg" else "")
        "en-us" false "run, jog" "" initState).1 =
      (if ∀ i ∈ splitItems (pyStrip "run, jog"),
          (fun s => if s = "run" then "rʌn" else if s = "jog" then "dʒɒg" else "") i = ""
        then pyStrip "run, jog"
        else pyStrip "run, jog" ++ " ("
          ++ pyJoin ", " (((splitItems (pyStrip "run, jog")).map
              (fun s => if s = "run" then "rʌn" else if s = "jog" then "dʒɒg" else "")).filter
                (fun i => i ≠ "")) ++ ")") :=
  ⟨by decide, by decide,
    C3_compose_structure (fun s => if s = "run" then "rʌn" else if s = "jog" then "dʒɒg" else "")
      "en-us" false "run, jog" "" initState
      (consistent_nil _ _ _) (by decide) (by decide)⟩

/-- A second note sharing the item `run` with `noteRun`, to exercise the
shared per-run cache. -/
def noteRunJog : NoteInfo :=
  ⟨2, fun k => if k = "Synonyms" then some "run, jog" else none⟩

/-- C4: within one run sharing one cache, the external tool is invoked at
most once per text (the final invocation log counts every text at most
once), every cached value equals the transcription function's value on the
keyed text, and on any cache consistent with the transcription function a
lookup—hit or miss—resolves to that same value.  Hence two items with
identical text, language and flag trigger at most one invocation combined
and resolve identically. -/
theorem C4_cache_correct (t : String → String) (cfg : Config) (notes : List NoteInfo) :
    (∀ s : String, (pipelinePlan t cfg notes).2.log.count s ≤ 1) ∧
    (∀ item v, List.lookup (cacheKey cfg.lang cfg.stripZeroWidth item)
        (pipelinePlan t cfg notes).2.cache = some v → v = t item) ∧
    (∀ (item : String) (st : TransState),
      Consistent t cfg.lang cfg.stripZeroWidth st.cache →
      (getOrCompute t cfg.lang cfg.stripZeroWidth item st).1 = t item) := by
  refine ⟨?_, ?_, ?_⟩
  · intro s
    exact List.nodup_iff_count_le_one.mp (pipelinePlan_keysLogged t cfg notes).1 s
  · exact pipelinePlan_consistent t cfg notes
  · intro item st hst
    exact getOrCompute_fst hst

theorem C4_cache_correct_witness :
    (pipelinePlan tRun defaultConfig [noteRun, noteRunJog]).2.log.count "run" ≤ 1 ∧
    (getOrCompute tRun defaultConfig.lang defaultConfig.stripZeroWidth "run" initState).1
      = tRun "run" :=
  ⟨(C4_cache_correct tRun defaultConfig [noteRun, noteRunJog]).1 "run",
   (C4_cache_correct tRun defaultConfig [noteRun, noteRunJog]).2.2 "run" initState
     (consistent_nil tRun defaultConfig.lang defaultConfig.stripZeroWidth)⟩

/-- C5 is FALSE as stated: the key lowercases the language
(`f"{lang.lower()}|..."`), so the two distinct triples `("EN-US", False, "a")`
and `("en-us", False, "a")` construct the SAME cache key and would share one
cache entry. -/
theorem C5_counterexample :
    cacheKey "EN-US" false "a" = cacheKey "en-us" false "a" ∧
    (("EN-US", false, "a") : String × Bool × String) ≠ ("en-us", false, "a") := by
  constructor
  · decide
  · decide

/-- C5 (amended): for a fixed language string and normalization flag—both are
fixed for the whole run by the CLI arguments—distinct item texts always
construct distinct cache keys, so two different items of one run never share
or overwrite one cache entry.  Across runs with different language
capitalizations the keys can collide (see the counterexample). -/
theorem C5_key_injective_amended (lang : String) (flag : Bool) (i j : String)
    (h : cacheKey lang flag i = cacheKey lang flag j) : i = j :=
  cacheKey_inj_item h

theorem C5_key_injective_amended_witness :
    cacheKey "en-us" false "ab" = cacheKey "en-us" false "ab" ∧ ("ab" : String) = "ab" :=
  ⟨rfl, C5_key_injective_amended "en-us" false "ab" "ab" rfl⟩

/-- C6: the transcription list produced by the item loop is exactly the
item-wise image of the comma-split item list—split order preserved, duplicate
items each contributing their own transcription in position—and the composed
parenthetical joins exactly the non-empty entries of that list in the same
order. -/
theorem C6_order_preserved (t : String → String) (lang : String) (flag : Bool)
    (x y : String) (st : TransState) (hc : Consistent t lang flag st.cache) :
    (transcribeItems t lang flag (splitItems (pyStrip x)) st).1
        = (splitItems (pyStrip x)).map t ∧
    (pyStrip x ≠ "" → splitItems (pyStrip x) ≠ [] →
      ¬ (∀ i ∈ splitItems (pyStrip x), t i = "") →
      (make_target_value t lang flag x y st).1 = pyStrip x ++ " ("
        ++ pyJoin ", " (((splitItems (pyStrip x)).map t).filter (fun i => i ≠ "")) ++ ")") := by
  constructor
  · exact transcribeItems_fst (splitItems (pyStrip x)) st hc
  · intro hx hitems hall
    rw [make_target_value_fst hc]
    unfold composePure
    rw [if_neg hx, if_neg hitems, if_neg]
    apply pyJoin_ne_empty
    · intro hnil
      exact hall ((filtered_map_eq_nil_iff t (splitItems (pyStrip x))).mp hnil)
    · intro s hs
      simpa using List.of_mem_filter hs

theorem C6_order_preserved_witness :
    (transcribeItems tRun "en-us" false (splitItems (pyStrip "run, jog, run")) initState).1
        = (splitItems (pyStrip "run, jog, run")).map tRun ∧
    (make_target_value tRun "en-us" false "run, jog, run" "" initState).1
        = "run, jog, run (rʌn, rʌn)" :=
  ⟨(C6_order_preserved tRun "en-us" false "run, jog, run" "" initState
      (consistent_nil tRun "en-us" false)).1,
   by
    rw [(C6_order_preserved tRun "en-us" false "run, jog, run" "" initState
      (consistent_nil tRun "en-us" false)).2 (by decide) (by decide) (by decide)]
    decide⟩

/-- C7 is FALSE as stated: when the external tool is not found on the
execution path, `subprocess.check_output` raises `FileNotFoundError`, which
the `except subprocess.CalledProcessError` clause at line 85 does NOT catch;
the run dies with the bare OS error, not with the script's `RuntimeError`
carrying captured tool output (there is no output to capture). -/
theorem C7_counterexample :
    ipa_of_text (fun _ => ToolResult.notFound) "run" "en-us" false
      = Except.error PyError.fileNotFoundError := rfl

/-- C7 (amended): on non-empty input, a non-zero exit of the external tool
raises the script's `RuntimeError` whose message is `espeak failed: `
followed by the stripped captured output; a tool missing from the execution
path instead lets the OS `FileNotFoundError` propagate uncaught.  In both
cases the whole run aborts—no item is skipped silently. -/
theorem C7_error_propagation (run : List String → ToolResult) (text lang : String)
    (flag : Bool) (out : String) (htext : pyStrip text ≠ "") :
    (run ["espeak", "-q", "-v" ++ voiceOf lang, "--ipa=3", pyStrip text]
        = ToolResult.exitNonZero out →
      ipa_of_text run text lang flag
        = Except.error (PyError.runtimeError ("espeak failed: " ++ pyStrip out))) ∧
    (run ["espeak", "-q", "-v" ++ voiceOf lang, "--ipa=3", pyStrip text]
        = ToolResult.notFound →
      ipa_of_text run text lang flag = Except.error PyError.fileNotFoundError) := by
  constructor
  · intro h
    unfold ipa_of_text
    rw [if_neg htext, h]
  · intro h
    unfold ipa_of_text
    rw [if_neg htext, h]

theorem C7_error_propagation_witness :
    pyStrip "run" ≠ "" ∧
    ipa_of_text (fun _ => ToolResult.exitNonZero " espeak: voice not found ")
        "run" "en-us" false
      = Except.error (PyError.runtimeError ("espeak failed: " ++ pyStrip " espeak: voice not found ")) :=
  ⟨by decide,
   (C7_error_propagation (fun _ => ToolResult.exitNonZero " espeak: voice not found ")
      "run" "en-us" false " espeak: voice not found " (by decide)).1 rfl⟩

/-! ## Lemmas for the batch mutator -/

lemma runMutation_take (store : List PlannedUpdate → Option String) :
    ∀ (bs : List (List PlannedUpdate)), ∃ k, (runMutation store bs).1 = bs.take k
  | [] => ⟨0, rfl⟩
  | b :: bs => by
      unfold runMutation
      cases hb : store b with
      | some e => exact ⟨1, by simp⟩
      | none =>
          obtain ⟨k, hk⟩ := runMutation_take store bs
          exact ⟨k + 1, by simp [hk]⟩

lemma runMutation_none (store : List PlannedUpdate → Option String) :
    ∀ (bs : List (List PlannedUpdate)), (runMutation store bs).2 = none →
      (runMutation store bs).1 = bs ∧ ∀ b ∈ bs, store b = none
  | [] => fun _ => ⟨rfl, by simp⟩
  | b :: bs => by
      unfold runMutation
      cases hb : store b with
      | some e => intro h; simp at h
      | none =>
          intro h
          simp only [] at h
          obtain ⟨h1, h2⟩ := runMutation_none store bs h
          refine ⟨by simp [h1], ?_⟩
          intro c hc
          rcases List.mem_cons.mp hc with hc | hc
          · subst hc; exact hb
          · exact h2 c hc

lemma runMutation_some (store : List PlannedUpdate → Option String) :
    ∀ (bs : List (List PlannedUpdate)) (e : String), (runMutation store bs).2 = some e →
      ∃ pre b, (runMutation store bs).1 = pre ++ [b] ∧
        (∀ c ∈ pre, store c = none) ∧ store b = some e
  | [] => by intro e h; simp [runMutation] at h
  | b :: bs => by
      intro e
      unfold runMutation
      cases hb : store b with
      | some e0 =>
          intro h
          simp only [] at h
          have he : e0 = e := by injection h
          subst he
          exact ⟨[], b, by simp, by simp, hb⟩
      | none =>
          intro h
          simp only [] at h
          obtain ⟨pre, bb, h1, h2, h3⟩ := runMutation_some store bs e h
          refine ⟨b :: pre, bb, by simp [h1], ?_, h3⟩
          intro c hc
          rcases List.mem_cons.mp hc with hc | hc
          · subst hc; exact hb
          · exact h2 c hc

/-- C8: the mutator chunks the ordered change set into consecutive
sub-batches of at most `MULTI_BATCH = 50` updates whose concatenation is the
change set, issues the requests in order, and stops right after the first
request whose response reports an error: the issued requests are a prefix of
the chunking, the failing request is the last one issued, the error carries
the store's detail, and already-issued requests are not revisited. -/
theorem C8_batch_mutator (store : List PlannedUpdate → Option String)
    (ups : List PlannedUpdate) :
    ((chunked ups MULTI_BATCH).flatten = ups) ∧
    (∀ b ∈ chunked ups MULTI_BATCH, b.length ≤ 50) ∧
    (∃ k, (mutateAll store ups).1 = (chunked ups MULTI_BATCH).take k) ∧
    ((mutateAll store ups).2 = none →
      (mutateAll store ups).1 = chunked ups MULTI_BATCH ∧
      ∀ b ∈ chunked ups MULTI_BATCH, store b = none) ∧
    (∀ e, (mutateAll store ups).2 = some e →
      ∃ pre b, (mutateAll store ups).1 = pre ++ [b] ∧
        (∀ c ∈ pre, store c = none) ∧ store b = some e) := by
  refine ⟨chunked_flatten ups MULTI_BATCH (by norm_num [MULTI_BATCH]), ?_, ?_, ?_, ?_⟩
  · intro b hb
    exact chunked_mem_length hb
  · exact runMutation_take store (chunked ups MULTI_BATCH)
  · exact runMutation_none store (chunked ups MULTI_BATCH)
  · exact runMutation_some store (chunked ups MULTI_BATCH)

/-- A store that accepts every request. -/
def storeOk : List PlannedUpdate → Option String := fun _ => none

theorem C8_batch_mutator_witness :
    (chunked [(⟨1, [("Synonyms", "run (rʌn)")]⟩ : PlannedUpdate)] MULTI_BATCH).flatten
        = [(⟨1, [("Synonyms", "run (rʌn)")]⟩ : PlannedUpdate)] ∧
    (mutateAll storeOk [(⟨1, [("Synonyms", "run (rʌn)")]⟩ : PlannedUpdate)]).1
        = chunked [(⟨1, [("Synonyms", "run (rʌn)")]⟩ : PlannedUpdate)] MULTI_BATCH :=
  ⟨(C8_batch_mutator storeOk [⟨1, [("Synonyms", "run (rʌn)")]⟩]).1,
   ((C8_batch_mutator storeOk [⟨1, [("Synonyms", "run (rʌn)")]⟩]).2.2.2.1 (by decide)).1⟩

/-- C9: every planned update ever appended to the change set carries a
non-empty new field value—the candidate condition at line 193 requires the
composed value to be truthy—so the pipeline never plans a mutation that
blanks the target field. -/
theorem C9_no_blanking (t : String → String) (cfg : Config) (notes : List NoteInfo) :
    ∀ u ∈ (pipelinePlan t cfg notes).1, ∀ kv ∈ u.fields, kv.2 ≠ "" := by
  intro u hu kv hkv
  rw [pipelinePlan_fst, List.mem_filterMap] at hu
  obtain ⟨n, _, hpn⟩ := hu
  obtain ⟨_, hflds, hne, _⟩ := planNotePure_some hpn
  rw [hflds] at hkv
  have : kv = (cfg.fieldZ, composePure t (pyStrip (getFieldValue n.fields cfg.fieldX))) := by
    simpa using hkv
  rw [this]
  exact hne

theorem C9_no_blanking_witness :
    (⟨1, [("Synonyms", "run (rʌn)")]⟩ : PlannedUpdate)
        ∈ (pipelinePlan tRun defaultConfig [noteRun]).1 ∧
    ("run (rʌn)" : String) ≠ "" :=
  ⟨by decide,
   C9_no_blanking tRun defaultConfig [noteRun] ⟨1, [("Synonyms", "run (rʌn)")]⟩
     (by decide) ("Synonyms", "run (rʌn)") (by decide)⟩

/-- C10: every planned update's `fields` payload has the configured target
field as its only key, so each mutation request sets exactly that one field
per note and names no other; this holds for the whole plan and hence for
every sub-batch the mutator sends. -/
theorem C10_single_field (t : String → String) (cfg : Config) (notes : List NoteInfo) :
    (∀ u ∈ (pipelinePlan t cfg notes).1, ∃ v, u.fields = [(cfg.fieldZ, v)]) ∧
    (∀ (store : List PlannedUpdate → Option String),
      ∀ b ∈ (mutateAll store (pipelinePlan t cfg notes).1).1,
      ∀ u ∈ b, ∃ v, u.fields = [(cfg.fieldZ, v)]) := by
  have hplan : ∀ u ∈ (pipelinePlan t cfg notes).1, ∃ v, u.fields = [(cfg.fieldZ, v)] := by
    intro u hu
    rw [pipelinePlan_fst, List.mem_filterMap] at hu
    obtain ⟨n, _, hpn⟩ := hu
    exact ⟨_, (planNotePure_some hpn).2.1⟩
  refine ⟨hplan, ?_⟩
  intro store b hb u hu
  obtain ⟨k, hk⟩ := runMutation_take store (chunked (pipelinePlan t cfg notes).1 MULTI_BATCH)
  unfold mutateAll at hb
  rw [hk] at hb
  have hbchunk : b ∈ chunked (pipelinePlan t cfg notes).1 MULTI_BATCH :=
    (List.take_sublist _ _).subset hb
  have humem : u ∈ (pipelinePlan t cfg notes).1 := by
    rw [← chunked_flatten (pipelinePlan t cfg notes).1 MULTI_BATCH (by norm_num [MULTI_BATCH])]
    exact List.mem_flatten.mpr ⟨b, hbchunk, hu⟩
  exact hplan u humem

theorem C10_single_field_witness :
    (⟨1, [("Synonyms", "run (rʌn)")]⟩ : PlannedUpdate)
        ∈ (pipelinePlan tRun defaultConfig [noteRun]).1 ∧
    ∃ v, ([("Synonyms", "run (rʌn)")] : List (String × String))
        = [(defaultConfig.fieldZ, v)] :=
  ⟨by decide,
   (C10_single_field tRun defaultConfig [noteRun]).1 ⟨1, [("Synonyms", "run (rʌn)")]⟩
     (by decide)⟩

end AnkiScript
